import Mathlib

/-!
Verification development for the serverstf state-cache subsystem
(`serverstf/cache.py`, `serverstf/websocket.py`, `serverstf/tagger.py`).

The Python code is shallowly embedded: Redis state becomes an explicit
state record, coroutines become pure state-passing functions, and Python
exceptions become `Except` values.  Layers that are faithful external
codecs are abstracted away: UTF-8 encoding of strings, and the JSON
*text* round trip (`json.dumps`/`json.loads`), which is modelled at the
level of decoded JSON values (`Json` below) plus a `JsonText.malformed`
constructor standing for any byte string that does not parse as JSON.
Likewise `str(int)`/`int(str)` stringification of stored integers is kept
as an explicit decimal codec (`toString` / `intOfString`).
-/

/-- Kinds of Python exceptions that the embedded code can raise.  The
class hierarchy matters: `AddressError` and `PlayersError` are subclasses
of `ValueError` in the source, which `isValueErrorKind` records for the
`except ValueError` handlers. -/
inductive PyErr where
  | addressError
  | valueError
  | typeError
  | playersError
  | emptyQueue
  | cacheError
deriving DecidableEq, Repr

/-- `isinstance(exc, ValueError)` for the embedded exception kinds:
`AddressError(ValueError)` and `PlayersError(ValueError)` are subclasses. -/
def isValueErrorKind : PyErr → Bool
  | .addressError => true
  | .valueError => true
  | .playersError => true
  | _ => false

/-- Decoded JSON values, as produced by `json.loads`.  Numbers are
modelled as rationals (the claims under study restrict durations to
finite values, so the float/rational distinction is immaterial). -/
inductive Json where
  | null
  | bool (b : Bool)
  | num (q : ℚ)
  | str (s : String)
  | arr (xs : List Json)
  | obj (fields : List (String × Json))

/-- A stored JSON *text*: either bytes that fail `json.loads` (including
the empty string) or bytes that decode to a JSON value. -/
inductive JsonText where
  | malformed
  | val (j : Json)

/-- Python `int()` truncation of a (finite) float/rational toward zero. -/
def ratTrunc (q : ℚ) : Int :=
  if 0 ≤ q then ⌊q⌋ else -⌊-q⌋

/-- Accumulate a non-empty all-digit character list into a natural
number; `none` on any non-digit. -/
def natOfDigitsAux (acc : Nat) : List Char → Option Nat
  | [] => some acc
  | c :: cs => if c.isDigit then natOfDigitsAux (acc * 10 + (c.toNat - 48)) cs else none

/-- Decimal value of a non-empty digit string. -/
def natOfDigits : List Char → Option Nat
  | [] => none
  | l => natOfDigitsAux 0 l

/-- Python `int(<string>)`: an optional sign followed by digits
(`ValueError` otherwise; Python's tolerance for surrounding whitespace
and underscores is abstracted away). -/
def intOfString (s : String) : Option Int :=
  match s.toList with
  | '-' :: rest => (natOfDigits rest).map fun n => -(n : Int)
  | '+' :: rest => (natOfDigits rest).map fun n => (n : Int)
  | l => (natOfDigits l).map fun n => (n : Int)

/-- Split a character list on a separator character; the single-character
case of `str.split`. -/
def splitChar (sep : Char) : List Char → List (List Char)
  | [] => [[]]
  | x :: xs =>
    if x = sep then [] :: splitChar sep xs
    else
      match splitChar sep xs with
      | [] => [[x]]
      | y :: ys => (x :: y) :: ys

/-- Python `int(x)` on a JSON-decoded value `x`:
numbers truncate, booleans map to 0/1, strings are parsed as decimal
integers (`ValueError` on failure), and every other shape is a
`TypeError`. -/
def pyIntOfJson : Json → Except PyErr Int
  | .num q => .ok (ratTrunc q)
  | .bool b => .ok (if b then 1 else 0)
  | .str s =>
    match intOfString s with
    | some n => .ok n
    | none => .error .valueError
  | _ => .error .typeError

/-- Python `repr` of a JSON-decoded value (quote escaping abstracted;
only its shape matters: a repr of a non-string value never parses as an
`<ip>:<port>` address). -/
def pyRepr : Json → String
  | .null => "None"
  | .bool b => if b then "True" else "False"
  | .num q => if q.den = 1 then toString q.num else toString q
  | .str s => "'" ++ s ++ "'"
  | .arr xs => "[" ++ ", ".intercalate (xs.attach.map fun x => pyRepr x.1) ++ "]"
  | .obj fs =>
    "\x7b" ++ ", ".intercalate (fs.attach.map fun f => "'" ++ f.1.1 ++ "': " ++ pyRepr f.1.2)
      ++ "\x7d"
decreasing_by
  · simp only [Json.arr.sizeOf_spec]
    have := List.sizeOf_lt_of_mem x.2
    omega
  · obtain ⟨⟨k, v⟩, hf⟩ := f
    simp only [Json.obj.sizeOf_spec]
    have := List.sizeOf_lt_of_mem hf
    simp only [Prod.mk.sizeOf_spec] at this
    omega

/-- Python `str(x)` of a JSON-decoded value: identity on strings,
`repr`-like elsewhere. -/
def pyStrOfJson : Json → String
  | .str s => s
  | j => pyRepr j

/-- Python truthiness: `in` membership test `field in decoded` from
`Players.from_json` (cache.py:283-285).  Key membership for dicts,
element membership for lists (a string can only equal string elements),
substring test for strings, `TypeError` for every other shape. -/
def pyContains (decoded : Json) (field : String) : Except PyErr Bool :=
  match decoded with
  | .obj fs => .ok (fs.any fun f => f.1 == field)
  | .arr xs => .ok (xs.any fun x => match x with | .str t => t == field | _ => false)
  | .str s => .ok (decide (field.toList <:+: s.toList))
  | _ => .error .typeError

/-- Python subscript `decoded[field]` with a string key: dict lookup, or
`TypeError` for lists/strings/other shapes (list and string indices must
be integers). -/
def pySubscript (decoded : Json) (field : String) : Except PyErr Json :=
  match decoded with
  | .obj fs =>
    match fs.find? (fun f => f.1 == field) with
    | some f => .ok f.2
    | none => .error .typeError
  | _ => .error .typeError

/-- An IPv4 address as four octets.  The source stores a validated
`ipaddress.IPv4Address`; the parser below (`IPv4.parse`) only ever
produces octets in `0..255`. -/
structure IPv4 where
  o1 : Nat
  o2 : Nat
  o3 : Nat
  o4 : Nat
deriving DecidableEq, Repr

/-- Dotted-decimal rendering of an IPv4 address. -/
def IPv4.str (ip : IPv4) : String :=
  toString ip.o1 ++ "." ++ toString ip.o2 ++ "." ++ toString ip.o3 ++ "." ++ toString ip.o4

/-- One decimal octet of a dotted-quad: non-empty, all digits, no
leading zero, value at most 255 (the `ipaddress.IPv4Address`
constructor's rules; it raises `AddressValueError` otherwise). -/
def parseOctet (l : List Char) : Option Nat :=
  match l with
  | [] => none
  | c :: rest =>
    if ¬ (c :: rest).all Char.isDigit then none
    else if rest ≠ [] ∧ c = '0' then none
    else match natOfDigits (c :: rest) with
      | some n => if n ≤ 255 then some n else none
      | none => none

/-- `ipaddress.IPv4Address(<string>)`: four dot-separated octets.
(The Python constructor also accepts packed integers; the embedding
covers the string form, the only one reaching it from this code.) -/
def IPv4.parse (s : String) : Option IPv4 :=
  match splitChar '.' s.toList with
  | [a, b, c, d] => do
    let x ← parseOctet a
    let y ← parseOctet b
    let z ← parseOctet c
    let w ← parseOctet d
    pure ⟨x, y, z, w⟩
  | _ => none

/-- A Python value that can be passed as the `port` argument of
`Address.__init__`: an integer, a string, or `None`. -/
inductive PyVal where
  | int (n : Int)
  | str (s : String)
  | none
deriving DecidableEq, Repr

/-- Python `int(port)`: identity on ints, decimal parse on strings
(`ValueError` on failure), `TypeError` on `None`. -/
def pyIntOfVal : PyVal → Except PyErr Int
  | .int n => .ok n
  | .str s =>
    match intOfString s with
    | some n => .ok n
    | Option.none => .error .valueError
  | .none => .error .typeError

/-- A server address: IPv4 address plus port (cache.py `Address`).
Equality is structural, as in the source `__eq__`. -/
structure Address where
  ip : IPv4
  port : Int
deriving DecidableEq, Repr

/-- `str(Address)`: the canonical `<ip>:<port>` form. -/
def addrStr (a : Address) : String :=
  a.ip.str ++ ":" ++ toString a.port

/-- `Address.__init__(ip, port)` (cache.py:148-158).  A malformed IP
raises `AddressError`.  For the port the source wraps `int(port)` in
`try ... except TypeError`, so a `TypeError` becomes `AddressError` but
a `ValueError` (e.g. a non-numeric string) propagates unchanged.
Out-of-range ports raise `AddressError`. -/
def Address.init (ip : String) (port : PyVal) : Except PyErr Address :=
  match IPv4.parse ip with
  | Option.none => .error .addressError
  | some ipv4 =>
    match pyIntOfVal port with
    | .error .typeError => .error .addressError
    | .error e => .error e
    | .ok p =>
      if p < 1 ∨ 65535 < p then .error .addressError
      else .ok ⟨ipv4, p⟩

/-- `Address.parse` (cache.py:179-196): split on the first `":"`; a
string without a colon raises `AddressError`, otherwise both halves go
to the constructor (the port half as a *string*). -/
def Address.parse (s : String) : Except PyErr Address :=
  match splitChar ':' s.toList with
  | [] => .error .addressError
  | [_] => .error .addressError
  | ip :: rest =>
    Address.init (String.mk ip) (PyVal.str (":".intercalate (rest.map String.mk)))

/-- The players snapshot (cache.py `Players`): current/max/bot counts
plus `(name, score, connection duration)` entries.  Durations
(`datetime.timedelta`) are modelled as rational seconds. -/
structure Players where
  current : Int
  max : Int
  bots : Int
  scores : List (String × Int × ℚ)
deriving DecidableEq, Repr

/-- The empty `Players(current=0, max_=0, bots=0, scores=[])`. -/
def Players.empty : Players := ⟨0, 0, 0, []⟩

/-- `Players.to_json` (cache.py:311-330), at the level of the decoded
JSON value: an object with `current`, `max`, `bots` and `scores`, the
latter an array of `[name, score, duration.total_seconds()]` triples. -/
def Players.to_json (p : Players) : Json :=
  .obj [("current", .num p.current), ("max", .num p.max), ("bots", .num p.bots),
        ("scores", .arr (p.scores.map fun e => .arr [.str e.1, .num e.2.1, .num e.2.2]))]

/-- `int(decoded[field])` for `current`/`max`/`bots` (cache.py:286-292):
subscript and conversion both sit inside
`try ... except (ValueError, TypeError)`, which re-raises as
`PlayersError`. -/
def convertCountField (decoded : Json) (field : String) : Except PyErr Int :=
  match pySubscript decoded field with
  | .error _ => .error .playersError
  | .ok v =>
    match pyIntOfJson v with
    | .ok n => .ok n
    | .error _ => .error .playersError

/-- Python iteration `for entry in x` (cache.py:295): lists yield
elements, strings yield one-character strings, dicts yield keys, and
every other shape raises `TypeError` — which `from_json` does *not*
catch. -/
def pyIterate : Json → Except PyErr (List Json)
  | .arr xs => .ok xs
  | .str s => .ok (s.toList.map fun c => Json.str (String.singleton c))
  | .obj fs => .ok (fs.map fun f => Json.str f.1)
  | _ => .error .typeError

/-- `isinstance(x, (int, float))`: JSON numbers, and booleans (`bool`
subclasses `int` in Python). -/
def isPyNumber : Json → Bool
  | .num _ => true
  | .bool _ => true
  | _ => false

/-- The per-entry validation of `scores` (cache.py:296-307): each entry
must be a 3-element list of a string and two numbers, anything else
raising `PlayersError`.  The validated entries are appended to a local
list that the source then *discards* (it passes `scores=[]` to the
constructor), so only success or failure is observable. -/
def checkScores : List Json → Except PyErr Unit
  | [] => .ok ()
  | e :: es =>
    match e with
    | .arr [n, s, d] =>
      match n with
      | .str _ =>
        if isPyNumber s ∧ isPyNumber d then checkScores es
        else .error .playersError
      | _ => .error .playersError
    | _ => .error .playersError

/-- The field-presence loop of `from_json` (cache.py:283-285):
`field not in decoded` raises `PlayersError`; the membership test itself
raises `TypeError` on non-container JSON values (numbers, booleans,
null), and that `TypeError` escapes `from_json`. -/
def requireFields (decoded : Json) : List String → Except PyErr Unit
  | [] => .ok ()
  | f :: fs =>
    match pyContains decoded f with
    | .error e => .error e
    | .ok true => requireFields decoded fs
    | .ok false => .error .playersError

/-- The body of `Players.from_json` after `json.loads` succeeded
(cache.py:283-308).  Note the final line of the source:
`return cls(current=current, max_=max_, bots=bots, scores=[])` — the
decoded scores are validated, collected and then thrown away. -/
def Players.fromJsonVal (decoded : Json) : Except PyErr Players := do
  requireFields decoded ["current", "max", "bots", "scores"]
  let current ← convertCountField decoded "current"
  let max_ ← convertCountField decoded "max"
  let bots ← convertCountField decoded "bots"
  let scoresJ ← pySubscript decoded "scores"
  let entries ← pyIterate scoresJ
  checkScores entries
  .ok { current := current, max := max_, bots := bots, scores := [] }

/-- `Players.from_json` (cache.py:269-308): `json.loads` failure maps to
`PlayersError`; otherwise the structural phase runs. -/
def Players.from_json : JsonText → Except PyErr Players
  | .malformed => .error .playersError
  | .val decoded => Players.fromJsonVal decoded

/-- The server status (cache.py `Status`), after the normalisation done
by `Status.__init__` (`interest=None` becomes 0, `players=None` becomes
`Players.empty`, `tags` becomes a frozenset). -/
structure Status where
  address : Address
  interest : Int
  name : Option String
  map : Option String
  application_id : Option Int
  players : Players
  tags : Finset String
deriving DecidableEq

/-- The fields of the Redis hash `serverstf/servers/<addr>`
(cache.py:32-63): `name`, `map`, `application_id` (all stringified,
absent when the status field was `None`) and the `players` JSON text
(absent only if an external writer dropped it). -/
structure StoredHash where
  name : Option String
  map : Option String
  application_id : Option String
  players : Option JsonText

/-- A raw interest-queue item as popped from the Redis list: empty
bytes (falsy in Python), non-empty bytes that fail `json.loads`
(or UTF-8 decoding), or bytes decoding to a JSON value. -/
inductive RawItem where
  | empty
  | invalid
  | json (j : Json)

/-- The Redis state reachable by the cache plus the cache handle's
`_active_iq_item` marker (cache.py:580-585).  Keys absent from Redis are
the default values: no hash, empty tag set, interest 0 (INCRBY creates
missing integer keys as 0), empty queue. -/
structure CacheState where
  servers : Finset Address
  hashes : Address → Option StoredHash
  tagSets : Address → Finset String
  interest : Address → Int
  tagIndex : String → Finset Address
  iq : List RawItem
  active : Option (Int × Address)

namespace AsyncCache

/-- `AsyncCache.__get` (cache.py:707-748).  Reads the hash, tag set and
interest counter; missing hash fields become `None`; `application_id`
goes through `int()` with `except (ValueError, TypeError)` making a bad
or absent value `None`; the `players` text goes through
`Players.from_json` with `except PlayersError` substituting
`Players.empty`.  Any *other* exception kind escaping `from_json`
propagates out of `get`. -/
def getAppId (st : CacheState) (a : Address) : Option Int :=
  match (st.hashes a).bind (fun x => x.application_id) with
  | none => none                       -- int(None) raises TypeError, caught
  | some s => intOfString s            -- int(<str>) ValueError caught

/-- The `Status` built by `__get` from the stored hash, tag set and
interest counter, given the decoded players. -/
def getStatusWith (st : CacheState) (a : Address) (p : Players) : Status :=
  { address := a, interest := st.interest a,
    name := (st.hashes a).bind (fun x => x.name),
    map := (st.hashes a).bind (fun x => x.map),
    application_id := getAppId st a, players := p, tags := st.tagSets a }

def get (st : CacheState) (a : Address) : Except PyErr Status :=
  match Players.from_json (((st.hashes a).bind (fun x => x.players)).getD .malformed) with
  | .ok p => .ok (getStatusWith st a p)
  | .error .playersError => .ok (getStatusWith st a Players.empty)
  | .error e => .error e

/-- `AsyncCache.__set` (cache.py:750-807), as a state transformer.  It
ensures the address in the authoritative set, overwrites the status hash
(skipping `None` fields, stringifying the rest) and the tag set, adds
the address to the reverse index of every tag in the new status, removes
it from the reverse index of dropped tags, and leaves the interest
counter and the queue untouched — `status.interest` is never read.  The
returned set is the newly applied tags, for each of which
`notify_tag` is invoked (a `notify_server` for the address is always
published first). -/
def set (st : CacheState) (s : Status) : CacheState × Finset String :=
  let old_tags := st.tagSets s.address
  let h : StoredHash :=
    { name := s.name, map := s.map,
      application_id := s.application_id.map toString,
      players := some (.val s.players.to_json) }
  let removed := old_tags \ s.tags
  ({ st with
      servers := insert s.address st.servers,
      hashes := fun a => if a = s.address then some h else st.hashes a,
      tagSets := fun a => if a = s.address then s.tags else st.tagSets a,
      tagIndex := fun t =>
        if t ∈ s.tags then insert s.address (st.tagIndex t)
        else if t ∈ removed then (st.tagIndex t).erase s.address
        else st.tagIndex t },
    s.tags \ old_tags)

/-- `AsyncCache._encode_iq_item` (cache.py:824-835):
`json.dumps([int(interest), str(address)])`. -/
def encode_iq_item (interest : Int) (a : Address) : RawItem :=
  .json (.arr [.num interest, .str (addrStr a)])

/-- `AsyncCache.subscribe` (cache.py:809-822): increment the interest
counter and push one `(new interest, address)` item on the queue. -/
def subscribe (st : CacheState) (a : Address) : CacheState :=
  let newInterest := st.interest a + 1
  { st with
      interest := fun x => if x = a then newInterest else st.interest x,
      iq := st.iq ++ [encode_iq_item newInterest a] }

/-- `AsyncCache._decode_iq_item` (cache.py:837-862): the bytes must be
UTF-8 JSON (`ValueError` otherwise), a two-element array (`ValueError`),
whose first element converts with `int()` (`TypeError`/`ValueError`
re-raised as `ValueError`) and whose second element's `str()` form
parses as an `Address` (errors from `Address.parse` propagate as is:
`AddressError`, or the plain `ValueError` of a non-numeric port — both
`ValueError` kinds). -/
def decode_iq_item : RawItem → Except PyErr (Int × Address)
  | .empty => .error .valueError
  | .invalid => .error .valueError
  | .json j =>
    match j with
    | .arr [a, b] =>
      match pyIntOfJson a with
      | .error _ => .error .valueError
      | .ok i =>
        match Address.parse (pyStrOfJson b) with
        | .error e => .error e
        | .ok addr => .ok (i, addr)
    | _ => .error .valueError

/-- The `while` loop of `AsyncCache.interesting` (cache.py:904-911):
LPOP until something decodes.  `lpop` returning `None` (exhausted queue)
*or empty bytes* is falsy, raising `EmptyQueueError`; a decode failure
(always a `ValueError` kind, see `decode_iq_item`) is logged and the
loop continues with the next item. -/
def interestingGo (st : CacheState) : List RawItem → Except PyErr (Address × CacheState)
  | [] => .error .emptyQueue
  | item :: rest =>
    match item with
    | .empty => .error .emptyQueue
    | _ =>
      match decode_iq_item item with
      | .error _ => interestingGo st rest
      | .ok (i, a) => .ok (a, { st with iq := rest, active := some (i, a) })

/-- `AsyncCache.interesting` (cache.py:889-912): `CacheError` if an
active item exists, otherwise pop-and-decode until an item decodes,
record it as active and return its address. -/
def interesting (st : CacheState) : Except PyErr (Address × CacheState) :=
  if st.active.isSome then .error .cacheError
  else interestingGo st st.iq

/-- `AsyncCache.update_interest_queue` (cache.py:874-887): unpack the
active item (`TypeError` if there is none), read the address's current
interest via `__get`, re-push the popped item if the current interest is
at least its interest-at-enqueue value, and clear the active marker. -/
def update_interest_queue (st : CacheState) : Except PyErr CacheState :=
  match st.active with
  | none => .error .typeError
  | some (i, a) =>
    match get st a with
    | .error e => .error e
    | .ok status =>
      .ok { st with
              iq := if i ≤ status.interest then st.iq ++ [encode_iq_item i a] else st.iq,
              active := none }

end AsyncCache

/-- `Notifier._channel` (cache.py:443-451): namespace, `channels`, then
the parts, joined by slashes.  The namespace is always `serverstf`. -/
def Notifier.channel (parts : List String) : String :=
  "/".intercalate ("serverstf" :: "channels" :: parts)

/-- `Notifier.SERVER` (cache.py:425). -/
def Notifier.SERVER : String := "servers"

/-- `Notifier.TAG` (cache.py:426). -/
def Notifier.TAG : String := "tags"

/-- The channel `Notifier.notify_server` publishes on (cache.py:481):
`channel(SERVER, address)`. -/
def notifyServerChannel (a : Address) : String :=
  Notifier.channel [Notifier.SERVER, addrStr a]

/-- The channel `Notifier.notify_tag` publishes on (cache.py:496):
the source computes `self._channel(self.TAG, address)` — the `tag`
parameter is never used in the channel name. -/
def notifyTagChannel (_tag : String) (a : Address) : String :=
  Notifier.channel [Notifier.TAG, addrStr a]

/-- The payload published by `notify_tag` (cache.py:498-499): the
stringified address. -/
def notifyTagPayload (_tag : String) (a : Address) : String := addrStr a

/-- The channel `Notifier.watch_tag` subscribes to (cache.py:527):
`channel(TAG, tag)`. -/
def watchTagChannel (t : String) : String :=
  Notifier.channel [Notifier.TAG, t]

/-- The channel `Notifier.watch_server` subscribes to (cache.py:508). -/
def watchServerChannel (a : Address) : String :=
  Notifier.channel [Notifier.SERVER, addrStr a]

/-- Observable actions of a websocket `Client` session
(websocket.py `Client`): cache calls plus enqueued outgoing messages. -/
inductive ClientEffect where
  | watchServer (a : Address)
  | unwatchServer (a : Address)
  | cacheSubscribe (a : Address)
  | sendStatus (a : Address)
  | sendMatch (a : Address)
deriving DecidableEq, Repr

/-- `Client._handle_subscribe` (websocket.py:195-206): the body performs
exactly two actions, `self._notifier.watch_server(address)` followed by
`self._send_status(address)`. -/
def handleSubscribeEffects (a : Address) : List ClientEffect :=
  [ClientEffect.watchServer a, ClientEffect.sendStatus a]

/-- `Client._handle_unsubscribe` (websocket.py:208-216). -/
def handleUnsubscribeEffects (a : Address) : List ClientEffect :=
  [ClientEffect.unwatchServer a]

/-- One iteration of `Client._watch_notifications` (websocket.py:326-337)
after `notifier.watch()` returned `(kind, address)`, given the tag set
of the status fetched from the cache for that address and the session's
recorded `include`/`exclude` sets.  The TAG branch sends a `match` when
`status.tags <= self._include and not status.tags & self._exclude`,
i.e. when the status's tags are a *subset* of `include` and disjoint
from `exclude`. -/
def watchNotificationEffects (kind : String) (a : Address)
    (statusTags includeTags excludeTags : Finset String) : List ClientEffect :=
  if kind = Notifier.SERVER then [ClientEffect.sendStatus a]
  else if kind = Notifier.TAG then
    if statusTags ⊆ includeTags ∧ statusTags ∩ excludeTags = ∅ then
      [ClientEffect.sendMatch a]
    else []
  else []

/-- A tag rule (tagger.py `TaggerImplementation`): a tag name, the
prerequisite tag names, and the predicate called with the A2S data
(bundled as one value of type `γ`) and the already-applied tags. -/
structure Rule (γ : Type) where
  tag : String
  deps : List String
  pred : γ → Finset String → Bool

/-- Resolve a named dependency to its rule
(tagger.py:38-48 `find_dependancies`). -/
def findRule {γ : Type} (rules : List (Rule γ)) (t : String) : Option (Rule γ) :=
  rules.find? fun r => r.tag == t

/-- The mutable state threaded through `Tagger._resolve_dependancies`
(tagger.py:104-106): the output list plus the permanent and temporary
mark sets of the depth-first search. -/
structure VState (γ : Type) where
  ordered : List (Rule γ)
  marked : Finset String
  temp : Finset String

/-- Errors of `Tagger` construction: `CyclicDependancyError` from the
temporary-mark check, `DependancyError` for an unresolvable prerequisite
(the source would actually crash with a `NameError` while *formatting*
that message, but the failure point is the same), and the fuel guard of
the embedding, which `resolveDependancies` supplies enough fuel to make
unreachable. -/
inductive TaggerErr where
  | cyclic
  | unresolved
  | fuelExhausted
deriving DecidableEq, Repr

/-- The `for dep in tagger.dependancies: visit(dep)` loop inside `visit`
(tagger.py:114-115), generic in the visiting function. -/
def visitDeps {γ : Type} (visitF : Rule γ → VState γ → Except TaggerErr (VState γ))
    (rules : List (Rule γ)) : List String → VState γ → Except TaggerErr (VState γ)
  | [], st => .ok st
  | d :: ds, st =>
    match findRule rules d with
    | none => .error .unresolved
    | some rd =>
      match visitF rd st with
      | .error e => .error e
      | .ok st' => visitDeps visitF rules ds st'

/-- The recursive `visit` of `Tagger._resolve_dependancies`
(tagger.py:108-118): error on a temporary mark (cycle), skip permanently
marked tags, otherwise temporarily mark, visit all prerequisites,
permanently mark, unmark and append.  Python recursion is modelled with
explicit fuel; the depth of non-failing nested calls is bounded by the
number of distinct tags, so `rules.length + 1` fuel never runs out
(proved below). -/
def visit {γ : Type} (rules : List (Rule γ)) :
    Nat → Rule γ → VState γ → Except TaggerErr (VState γ)
  | 0, _, _ => .error .fuelExhausted
  | fuel + 1, r, st =>
    if r.tag ∈ st.temp then .error .cyclic
    else if r.tag ∈ st.marked then .ok st
    else
      match visitDeps (visit rules fuel) rules r.deps
          { st with temp := insert r.tag st.temp } with
      | .error e => .error e
      | .ok st' =>
        .ok { ordered := st'.ordered ++ [r],
              marked := insert r.tag st'.marked,
              temp := st'.temp.erase r.tag }

/-- The top-level loop of `_resolve_dependancies` (tagger.py:120-122):
visit every not-yet-marked rule in declaration order. -/
def resolveGo {γ : Type} (rules : List (Rule γ)) :
    List (Rule γ) → VState γ → Except TaggerErr (VState γ)
  | [], st => .ok st
  | r :: rest, st =>
    if r.tag ∈ st.marked then resolveGo rules rest st
    else
      match visit rules (rules.length + 1) r st with
      | .error e => .error e
      | .ok st' => resolveGo rules rest st'

/-- `Tagger._resolve_dependancies` (tagger.py:90-123): the topologically
ordered rule list, or an error. -/
def resolveDependancies {γ : Type} (rules : List (Rule γ)) :
    Except TaggerErr (List (Rule γ)) :=
  match resolveGo rules rules ⟨[], ∅, ∅⟩ with
  | .error e => .error e
  | .ok st => .ok st.ordered

/-- The evaluation loop of `Tagger.evaluate` (tagger.py:131-136) over an
ordered rule list: each predicate sees the tags applied so far, and a
true predicate applies the rule's tag. -/
def evalRules {γ : Type} (x : γ) : List (Rule γ) → Finset String → Finset String
  | [], acc => acc
  | r :: rest, acc =>
    evalRules x rest (if r.pred x acc then insert r.tag acc else acc)

/-- `Tagger.evaluate` (tagger.py:131-136) on an ordered rule list. -/
def Tagger.evaluate {γ : Type} (ordered : List (Rule γ)) (x : γ) : Finset String :=
  evalRules x ordered ∅

/-- `r` depends on `p`: some rule tagged `r` lists `p` as prerequisite. -/
def DependsOn {γ : Type} (rules : List (Rule γ)) (p r : String) : Prop :=
  ∃ rr ∈ rules, rr.tag = r ∧ p ∈ rr.deps

/-- The prerequisite graph of a rule set contains a (directed) cycle. -/
def HasCycle {γ : Type} (rules : List (Rule γ)) : Prop :=
  ∃ t, Relation.TransGen (DependsOn rules) t t

/-- `l` is topologically sorted: every prerequisite of the rule at
position `i` is the tag of an earlier rule. -/
def DepsBefore {γ : Type} (l : List (Rule γ)) : Prop :=
  ∀ i (hi : i < l.length), ∀ d ∈ (l[i]).deps,
    d ∈ (l.take i).map fun r => r.tag

/-- The set of tag names of a rule list. -/
def allTags {γ : Type} (rules : List (Rule γ)) : Finset String :=
  (rules.map fun r => r.tag).toFinset

/-- The invariant of the depth-first search state: the permanent marks
are exactly the tags of the output list, the output list is
topologically sorted, has no duplicate tags and only holds rules of the
input; temporary and permanent marks are disjoint and the temporary
marks are tags of the input. -/
def TInv {γ : Type} (rules : List (Rule γ)) (st : VState γ) : Prop :=
  st.marked = (st.ordered.map fun r => r.tag).toFinset ∧
  DepsBefore st.ordered ∧
  (st.ordered.map fun r => r.tag).Nodup ∧
  (∀ t ∈ st.temp, t ∉ st.marked) ∧
  st.temp ⊆ allTags rules ∧
  (∀ q ∈ st.ordered, q ∈ rules)

/-- Fixture: the address `192.0.2.1:27015` used by the concrete
scenarios of the specification. -/
def addr0 : Address := ⟨⟨192, 0, 2, 1⟩, 27015⟩

/-- Fixture: a players snapshot with one score entry
(`alice`, score 5, connected 30 s). -/
def onePlayerRoster : Players := ⟨1, 24, 0, [("alice", 5, 30)]⟩

/-- Fixture: a cache state with every Redis key absent and no active
queue item. -/
def emptyCacheState : CacheState :=
  ⟨∅, fun _ => none, fun _ => ∅, fun _ => 0, fun _ => ∅, [], none⟩

/-- Fixture: a status for `addr0` carrying a non-empty player roster. -/
def status0 : Status :=
  ⟨addr0, 7, some "2Fort", some "ctf_2fort", some 440, onePlayerRoster, {"tf2"}⟩

/-- Fixture: a state whose hash for `addr0` stores `5` in the `players`
field — well-formed JSON that is not a `Players` object. -/
def numberPlayersState : CacheState :=
  { emptyCacheState with
      hashes := fun a =>
        if a = addr0 then some ⟨some "x", none, none, some (.val (.num 5))⟩ else none }

/-- Fixture: a state whose hash for `addr0` stores unparseable bytes in
the `players` field. -/
def malformedPlayersState : CacheState :=
  { emptyCacheState with
      hashes := fun a =>
        if a = addr0 then some ⟨some "x", none, none, some .malformed⟩ else none }

/-- Fixture: a valid interest-queue item for `addr0` enqueued at
interest level 2. -/
def iqItem0 : RawItem := AsyncCache.encode_iq_item 2 addr0

/-- Fixture: a state with one valid queue item for `addr0` and current
interest 3. -/
def oneItemState : CacheState :=
  { emptyCacheState with
      iq := [iqItem0],
      interest := fun a => if a = addr0 then 3 else 0 }

/-- Fixture: the state `interesting` leaves behind after popping
`iqItem0` from `oneItemState`. -/
def oneItemPoppedState : CacheState :=
  { oneItemState with iq := [], active := some (2, addr0) }

/-- Fixture: a queue holding empty bytes in front of a valid item. -/
def emptyItemFirstState : CacheState :=
  { emptyCacheState with iq := [RawItem.empty, iqItem0] }

/-- Fixture: a queue holding undecodable bytes in front of a valid
item. -/
def invalidItemFirstState : CacheState :=
  { emptyCacheState with iq := [RawItem.invalid, iqItem0] }

/-- Fixture: a queue whose single item is `["3", "192.0.2.1:27015"]` —
the interest is a numeric *string*, not an integer. -/
def stringInterestState : CacheState :=
  { emptyCacheState with iq := [RawItem.json (.arr [.str "3", .str "192.0.2.1:27015"])] }

/-- Fixture: two rules whose prerequisites form the cycle a → b → a. -/
def cyclicRules : List (Rule Unit) :=
  [⟨"a", ["b"], fun _ _ => true⟩, ⟨"b", ["a"], fun _ _ => true⟩]

/-- C1: the round-trip law `Players.from_json(p.to_json()) == p` fails on
the code: `from_json` validates and collects the decoded score entries
but then calls the constructor with `scores=[]` (cache.py:308), so a
roster with a score entry comes back with an empty score sequence.
Evaluated at the failing input `onePlayerRoster`. -/
theorem C1_from_json_to_json_drops_scores :
    Players.from_json (.val (Players.to_json onePlayerRoster)) =
      .ok { onePlayerRoster with scores := [] } ∧
    Players.from_json (.val (Players.to_json onePlayerRoster)) ≠ .ok onePlayerRoster := by
  refine ⟨rfl, fun h => ?_⟩
  rw [show Players.from_json (.val (Players.to_json onePlayerRoster)) =
        .ok { onePlayerRoster with scores := [] } from rfl] at h
  exact absurd (Except.ok.inj h) (by decide)

/-- C2: a valid `subscribe` message makes the session watch the server
channel and send one status, but `Client._handle_subscribe`
(websocket.py:195-206) performs no `cache.subscribe(addr)` call, so the
claimed interest increment and interest-queue insertion never happen. -/
theorem C2_subscribe_handler_never_calls_cache_subscribe :
    ∀ a : Address, ClientEffect.cacheSubscribe a ∉ handleSubscribeEffects a := by
  intro a h
  simp [handleSubscribeEffects] at h

/-- C4: `Notifier.notify_tag(tag, address)` computes its channel as
`channel(TAG, address)` (cache.py:496), not `channel(TAG, tag)`, so the
notification goes to `serverstf/channels/tags/<address>` while
`watch_tag(tag)` listens on `serverstf/channels/tags/<tag>`: a watcher
of the tag is never unblocked.  (The payload itself is the canonical
address, as claimed.) -/
theorem C4_notify_tag_publishes_on_address_channel :
    notifyTagChannel "mode:koth" addr0 = "serverstf/channels/tags/192.0.2.1:27015" ∧
    watchTagChannel "mode:koth" = "serverstf/channels/tags/mode:koth" ∧
    notifyTagChannel "mode:koth" addr0 ≠ watchTagChannel "mode:koth" ∧
    notifyTagPayload "mode:koth" addr0 = "192.0.2.1:27015" := by
  refine ⟨rfl, rfl, ?_, rfl⟩
  decide

/-- C5: on a TAG notification the session should send a `match` iff the
status's tag set is a *superset* of `include` and disjoint from
`exclude`; the code tests `status.tags <= self._include`
(websocket.py:335), i.e. the subset direction.  For the scenario-2 tags
`{tf2, mode:cp, mode:koth}` with `include = {mode:koth}` the spec
condition holds yet no `match` is produced. -/
theorem C5_tag_match_condition_is_backwards :
    watchNotificationEffects Notifier.TAG addr0
      {"tf2", "mode:cp", "mode:koth"} {"mode:koth"} ∅ = [] ∧
    ({"mode:koth"} : Finset String) ⊆ {"tf2", "mode:cp", "mode:koth"} ∧
    ({"tf2", "mode:cp", "mode:koth"} : Finset String) ∩ ∅ = ∅ := by
  refine ⟨?_, by decide, by decide⟩
  simp [watchNotificationEffects, Notifier.TAG, Notifier.SERVER]
  decide

/-- C8: invalid addresses are supposed to fail with `AddressError`, and
ports 0 and 65536 and malformed IPs do; but `Address.__init__` wraps
`int(port)` only in `except TypeError` (cache.py:153-156), so a
non-numeric port string raises a plain `ValueError` that escapes —
contradicting the constructor's own docstring. -/
theorem C8_nonnumeric_port_raises_plain_valueerror :
    Address.parse "192.0.2.1:abc" = .error .valueError ∧
    Address.parse "192.0.2.1:abc" ≠ .error .addressError ∧
    Address.parse "192.0.2.1:0" = .error .addressError ∧
    Address.parse "192.0.2.1:65536" = .error .addressError ∧
    Address.parse "299.0.2.1:27015" = .error .addressError ∧
    Address.init "192.0.2.1" PyVal.none = .error .addressError := by
  refine ⟨rfl, fun h => ?_, rfl, rfl, rfl, rfl⟩
  rw [show Address.parse "192.0.2.1:abc" = .error .valueError from rfl] at h
  exact absurd (Except.error.inj h) (by decide)

/-- C3: after `set(s)`, `get(s.address)` preserves tags, name, map and
application id and ignores the interest of the input (last conjunct),
but the players come back with the score entries dropped — the stored
JSON is decoded by `Players.from_json`, which discards scores
(cache.py:308).  Evaluated at `status0`, whose roster has one entry. -/
theorem C3_set_get_loses_player_scores :
    AsyncCache.get (AsyncCache.set emptyCacheState status0).1 addr0 =
      .ok { status0 with interest := 0, players := { onePlayerRoster with scores := [] } } ∧
    ({ onePlayerRoster with scores := [] } : Players) ≠ status0.players ∧
    (∀ (st : CacheState) (s : Status) (i : Int),
      AsyncCache.set st { s with interest := i } = AsyncCache.set st s) := by
  refine ⟨rfl, by decide, fun st s i => rfl⟩

/-- C9: `get` on an address with no stored keys returns the all-null
status with an empty roster, empty tags and interest 0; and a stored
`players` field that fails to parse as JSON is replaced by an empty
`Players` while the rest of the status is returned as stored. -/
theorem C9_get_missing_address_and_malformed_players :
    (∀ (st : CacheState) (a : Address),
      st.hashes a = none → st.tagSets a = ∅ → st.interest a = 0 →
      AsyncCache.get st a = .ok ⟨a, 0, none, none, none, Players.empty, ∅⟩) ∧
    (∀ (st : CacheState) (a : Address) (h : StoredHash),
      st.hashes a = some h → h.players = some JsonText.malformed →
      AsyncCache.get st a =
        .ok ⟨a, st.interest a, h.name, h.map,
             h.application_id.bind intOfString, Players.empty, st.tagSets a⟩) := by
  constructor
  · intro st a h1 h2 h3
    simp [AsyncCache.get, AsyncCache.getStatusWith, AsyncCache.getAppId,
      h1, h2, h3, Players.from_json]
  · intro st a h h1 h2
    cases happ : h.application_id <;>
      simp [AsyncCache.get, AsyncCache.getStatusWith, AsyncCache.getAppId,
        h1, h2, happ, Players.from_json]

/-- Witness for C9 at the fixtures `emptyCacheState` and
`malformedPlayersState`. -/
theorem C9_witness :
    AsyncCache.get emptyCacheState addr0 =
      .ok ⟨addr0, 0, none, none, none, Players.empty, ∅⟩ ∧
    AsyncCache.get malformedPlayersState addr0 =
      .ok ⟨addr0, 0, some "x", none, none, Players.empty, ∅⟩ := by
  constructor
  · exact C9_get_missing_address_and_malformed_players.1 emptyCacheState addr0 rfl rfl rfl
  · exact C9_get_missing_address_and_malformed_players.2 malformedPlayersState addr0
      ⟨some "x", none, none, some .malformed⟩ rfl rfl

/-- Any successful `interestingGo` leaves the unconsumed tail of the
queue and records the decoded item as active. -/
theorem interestingGo_ok_shape :
    ∀ (items : List RawItem) (st : CacheState) (a : Address) (st' : CacheState),
      AsyncCache.interestingGo st items = .ok (a, st') →
      ∃ i rest, st' = { st with iq := rest, active := some (i, a) } := by
  intro items
  induction items with
  | nil => intro st a st' h; simp [AsyncCache.interestingGo] at h
  | cons item rest ih =>
    intro st a st' h
    cases item with
    | empty => simp [AsyncCache.interestingGo] at h
    | invalid =>
      rw [show AsyncCache.interestingGo st (RawItem.invalid :: rest) =
            AsyncCache.interestingGo st rest from rfl] at h
      exact ih st a st' h
    | json j =>
      rw [show AsyncCache.interestingGo st (RawItem.json j :: rest) =
            (match AsyncCache.decode_iq_item (.json j) with
             | .error _ => AsyncCache.interestingGo st rest
             | .ok (i, a') => .ok (a', { st with iq := rest, active := some (i, a') }))
          from rfl] at h
      rcases hdec : AsyncCache.decode_iq_item (.json j) with e | ⟨i, a'⟩ <;> rw [hdec] at h
      · exact ih st a st' h
      · rcases Prod.mk.injEq .. ▸ Except.ok.inj h with ⟨ha, hs⟩
        exact ⟨i, rest, by rw [← hs, ← ha]⟩

/-- `AsyncCache.get` always reports the current value of the interest
counter when it succeeds. -/
theorem get_ok_interest (st : CacheState) (a : Address) (t : Status)
    (h : AsyncCache.get st a = .ok t) : t.interest = st.interest a := by
  unfold AsyncCache.get at h
  split at h
  · cases h; rfl
  · cases h; rfl
  · cases h

theorem update_interest_queue_active (st : CacheState) (i : Int) (a : Address)
    (hact : st.active = some (i, a)) :
    AsyncCache.update_interest_queue st =
      match AsyncCache.get st a with
      | .error e => .error e
      | .ok status =>
        .ok { st with
                iq := if i ≤ status.interest
                      then st.iq ++ [AsyncCache.encode_iq_item i a] else st.iq,
                active := none } := by
  unfold AsyncCache.update_interest_queue
  rw [hact]

/-- C7: after a successful `interesting()` the popped item `(i, a)` is
the active item, and `update_interest_queue` re-enqueues exactly one
item for `a` iff the address's current interest is at least `i`,
discards it otherwise, and clears the active marker in both cases (so a
following `interesting()` passes the active-item guard again). -/
theorem C7_update_interest_queue_requeues_iff_interest_held
    (st₀ st : CacheState) (a : Address)
    (hpop : AsyncCache.interesting st₀ = .ok (a, st)) :
    ∃ i rest, st = { st₀ with iq := rest, active := some (i, a) } ∧
      ∀ status, AsyncCache.get st a = .ok status →
        status.interest = st.interest a ∧
        AsyncCache.update_interest_queue st =
          .ok { st with
                  iq := if i ≤ status.interest
                        then st.iq ++ [AsyncCache.encode_iq_item i a] else st.iq,
                  active := none } := by
  unfold AsyncCache.interesting at hpop
  split at hpop
  · cases hpop
  · obtain ⟨i, rest, hst⟩ := interestingGo_ok_shape st₀.iq st₀ a st hpop
    refine ⟨i, rest, hst, fun status hget => ⟨get_ok_interest st a status hget, ?_⟩⟩
    have hact : st.active = some (i, a) := by rw [hst]
    rw [update_interest_queue_active st i a hact, hget]

/-- Witness for C7: pop the single valid item of `oneItemState` and run
the update. -/
theorem C7_witness :
    ∃ i rest,
      oneItemPoppedState = { oneItemState with iq := rest, active := some (i, addr0) } ∧
      ∀ status, AsyncCache.get oneItemPoppedState addr0 = .ok status →
        status.interest = oneItemPoppedState.interest addr0 ∧
        AsyncCache.update_interest_queue oneItemPoppedState =
          .ok { oneItemPoppedState with
                  iq := if i ≤ status.interest
                        then oneItemPoppedState.iq ++ [AsyncCache.encode_iq_item i addr0]
                        else oneItemPoppedState.iq,
                  active := none } :=
  C7_update_interest_queue_requeues_iff_interest_held oneItemState oneItemPoppedState addr0 rfl

/-- C10 counterexample: the claim fails on two inputs.  (a) Popping
empty bytes hits the falsy `if not item_raw` guard (cache.py:906) and
raises `EmptyQueueError` even though a perfectly decodable item is still
behind it, so the bad item is neither discarded-and-skipped nor is the
queue exhausted.  (b) The item `["3", "192.0.2.1:27015"]` — whose first
element is a string, not an integer — is accepted by `int()` and
*returned* rather than discarded. -/
theorem C10_counterexample :
    AsyncCache.interesting emptyItemFirstState = .error .emptyQueue ∧
    AsyncCache.decode_iq_item iqItem0 = .ok (2, addr0) ∧
    AsyncCache.interesting stringInterestState =
      .ok (addr0, { stringInterestState with iq := [], active := some (3, addr0) }) :=
  ⟨rfl, rfl, rfl⟩

/-- Unfolding equation: an `invalid` item is popped, fails to decode and
the loop continues. -/
theorem interestingGo_cons_invalid (st : CacheState) (rest : List RawItem) :
    AsyncCache.interestingGo st (RawItem.invalid :: rest) =
      AsyncCache.interestingGo st rest := rfl

/-- Unfolding equation: a `json` item is popped and decoded. -/
theorem interestingGo_cons_json (st : CacheState) (j : Json) (rest : List RawItem) :
    AsyncCache.interestingGo st (RawItem.json j :: rest) =
      (match AsyncCache.decode_iq_item (.json j) with
       | .error _ => AsyncCache.interestingGo st rest
       | .ok (i, a') => .ok (a', { st with iq := rest, active := some (i, a') })) := rfl

/-- If every queued item is non-empty and undecodable, the pop loop
drains the whole queue and raises `EmptyQueueError`. -/
theorem interestingGo_all_undecodable (st : CacheState) :
    ∀ items : List RawItem,
      (∀ it ∈ items, it ≠ RawItem.empty) →
      (∀ it ∈ items, ∀ i a, AsyncCache.decode_iq_item it ≠ .ok (i, a)) →
      AsyncCache.interestingGo st items = .error .emptyQueue := by
  intro items
  induction items with
  | nil => intro _ _; rfl
  | cons item rest ih =>
    intro hne hbad
    have hrest := ih (fun it h => hne it (List.mem_cons_of_mem _ h))
      (fun it h => hbad it (List.mem_cons_of_mem _ h))
    cases item with
    | empty => exact absurd rfl (hne .empty (List.mem_cons_self _ _))
    | invalid =>
      rw [interestingGo_cons_invalid]
      exact hrest
    | json j =>
      rw [interestingGo_cons_json]
      rcases hdec : AsyncCache.decode_iq_item (.json j) with e | ⟨i, a⟩
      · exact hrest
      · exact absurd hdec (hbad _ (List.mem_cons_self _ _) i a)

/-- The pop loop skips undecodable non-empty items and returns the first
item that decodes, leaving the rest of the queue behind. -/
theorem interestingGo_first_decodable (st : CacheState) :
    ∀ (pre : List RawItem) (it : RawItem) (post : List RawItem) (i : Int) (a : Address),
      (∀ x ∈ pre, x ≠ RawItem.empty) →
      (∀ x ∈ pre, ∀ i' a', AsyncCache.decode_iq_item x ≠ .ok (i', a')) →
      it ≠ RawItem.empty →
      AsyncCache.decode_iq_item it = .ok (i, a) →
      AsyncCache.interestingGo st (pre ++ it :: post) =
        .ok (a, { st with iq := post, active := some (i, a) }) := by
  intro pre
  induction pre with
  | nil =>
    intro it post i a _ _ hne hdec
    cases it with
    | empty => exact absurd rfl hne
    | invalid => simp [AsyncCache.decode_iq_item] at hdec
    | json j =>
      rw [List.nil_append, interestingGo_cons_json, hdec]
  | cons x pre ih =>
    intro it post i a hne hbad hne2 hdec
    have tail := ih it post i a (fun y h => hne y (List.mem_cons_of_mem _ h))
      (fun y h => hbad y (List.mem_cons_of_mem _ h)) hne2 hdec
    cases x with
    | empty => exact absurd rfl (hne .empty (List.mem_cons_self _ _))
    | invalid =>
      rw [List.cons_append, interestingGo_cons_invalid]
      exact tail
    | json j =>
      rw [List.cons_append, interestingGo_cons_json]
      rcases hdec2 : AsyncCache.decode_iq_item (.json j) with e | ⟨i', a'⟩
      · exact tail
      · exact absurd hdec2 (hbad _ (List.mem_cons_self _ _) i' a')

/-- C10 (amended): provided no queued item is the empty byte string,
`interesting()` discards every popped item the decoder rejects and keeps
popping, returns the first item that decodes (recording it as active),
and raises `EmptyQueueError` exactly when no item decodes — i.e. when
the queue is drained.  (The unamended claim fails when empty bytes are
queued, and on items whose interest field is a numeric string; see the
counterexample.) -/
theorem C10_interesting_skips_undecodable_items (st : CacheState)
    (hactive : st.active = none)
    (hnonempty : ∀ it ∈ st.iq, it ≠ RawItem.empty) :
    ((∀ it ∈ st.iq, ∀ i a, AsyncCache.decode_iq_item it ≠ .ok (i, a)) →
      AsyncCache.interesting st = .error .emptyQueue) ∧
    (∀ (pre : List RawItem) (it : RawItem) (post : List RawItem) (i : Int) (a : Address),
      st.iq = pre ++ it :: post →
      (∀ x ∈ pre, ∀ i' a', AsyncCache.decode_iq_item x ≠ .ok (i', a')) →
      AsyncCache.decode_iq_item it = .ok (i, a) →
      AsyncCache.interesting st = .ok (a, { st with iq := post, active := some (i, a) })) := by
  have hint : AsyncCache.interesting st = AsyncCache.interestingGo st st.iq := by
    unfold AsyncCache.interesting
    rw [hactive]
    rfl
  constructor
  · intro hbad
    rw [hint]
    exact interestingGo_all_undecodable st st.iq hnonempty hbad
  · intro pre it post i a hsplit hbad hdec
    rw [hint, hsplit]
    exact interestingGo_first_decodable st pre it post i a
      (fun x h => hnonempty x (hsplit ▸ List.mem_append_left _ h))
      hbad
      (hnonempty it (hsplit ▸ List.mem_append_right _ (List.mem_cons_self _ _)))
      hdec

/-- Witness for C10: an undecodable item in front of a valid one is
skipped and the valid item is returned. -/
theorem C10_witness :
    AsyncCache.interesting invalidItemFirstState =
      .ok (addr0, { invalidItemFirstState with iq := [], active := some (2, addr0) }) := by
  refine (C10_interesting_skips_undecodable_items invalidItemFirstState rfl ?_).2
    [RawItem.invalid] iqItem0 [] 2 addr0 rfl ?_ rfl
  · intro it hit
    rcases List.mem_cons.mp hit with h | h
    · subst h; intro hc; cases hc
    · rcases List.mem_cons.mp h with h2 | h2
      · subst h2; intro hc; cases hc
      · cases h2
  · intro x hx i' a'
    rcases List.mem_cons.mp hx with h | h
    · subst h; intro hc; cases hc
    · cases h

/-- A resolved dependency has the looked-up tag. -/
theorem findRule_tag {γ : Type} {rules : List (Rule γ)} {d : String} {rd : Rule γ}
    (h : findRule rules d = some rd) : rd.tag = d := by
  have := List.find?_some h
  simpa using this

/-- A resolved dependency is one of the rules. -/
theorem findRule_mem {γ : Type} {rules : List (Rule γ)} {d : String} {rd : Rule γ}
    (h : findRule rules d = some rd) : rd ∈ rules :=
  List.mem_of_find?_eq_some h

/-- A dependency with a matching rule resolves to something. -/
theorem findRule_isSome {γ : Type} {rules : List (Rule γ)} {d : String}
    (h : ∃ rr ∈ rules, rr.tag = d) : ∃ rd, findRule rules d = some rd := by
  rcases hf : findRule rules d with _ | rd
  · rcases h with ⟨rr, hmem, htag⟩
    have := List.find?_eq_none.mp hf rr hmem
    simp [htag] at this
  · exact ⟨rd, rfl⟩

/-- Appending a rule whose prerequisites are all tags of the list
preserves topological sortedness. -/
theorem depsBefore_append {γ : Type} {l : List (Rule γ)} {r : Rule γ}
    (h : DepsBefore l) (hr : ∀ d ∈ r.deps, d ∈ l.map fun q => q.tag) :
    DepsBefore (l ++ [r]) := by
  intro i hi d hd
  rcases Nat.lt_or_ge i l.length with hlt | hge
  · rw [List.getElem_append_left hlt] at hd
    rw [List.take_append_of_le_length (Nat.le_of_lt hlt)]
    exact h i hlt d hd
  · have hlen : i < l.length + 1 := by simpa using hi
    have hieq : i = l.length := by omega
    subst hieq
    have hget : (l ++ [r])[l.length] = r := by
      rw [List.getElem_append_right (Nat.le_refl _)]
      simp
    rw [hget] at hd
    rw [List.take_left]
    exact hr d hd

/-- The initial search state satisfies the invariant. -/
theorem tinv_init {γ : Type} (rules : List (Rule γ)) :
    TInv rules ⟨[], ∅, ∅⟩ := by
  refine ⟨by simp, ?_, by simp, by simp, by simp, by simp⟩
  intro i hi
  simp at hi

/-- Temporarily marking an unmarked rule preserves the invariant. -/
theorem tinv_insert_temp {γ : Type} {rules : List (Rule γ)} {st : VState γ} {r : Rule γ}
    (hinv : TInv rules st) (hr : r ∈ rules) (hm : r.tag ∉ st.marked) :
    TInv rules { st with temp := insert r.tag st.temp } := by
  obtain ⟨h1, h2, h3, h4, h5, h6⟩ := hinv
  refine ⟨h1, h2, h3, ?_, ?_, h6⟩
  · intro t ht
    rcases Finset.mem_insert.mp ht with rfl | ht
    · exact hm
    · exact h4 t ht
  · intro t ht
    rcases Finset.mem_insert.mp ht with rfl | ht
    · exact List.mem_toFinset.mpr (List.mem_map.mpr ⟨r, hr, rfl⟩)
    · exact h5 ht

/-- Properties of a successful dependency loop, generic in the visiting
function: the invariant is preserved, the temporary marks are restored,
the permanent marks grow, every listed dependency ends up permanently
marked, and the output list only grows. -/
theorem visitDeps_ok_props {γ : Type} (rules : List (Rule γ))
    (visitF : Rule γ → VState γ → Except TaggerErr (VState γ))
    (hF : ∀ r st st', r ∈ rules → TInv rules st → visitF r st = .ok st' →
      TInv rules st' ∧ st'.temp = st.temp ∧ st.marked ⊆ st'.marked ∧
      r.tag ∈ st'.marked ∧ ∃ news, st'.ordered = st.ordered ++ news) :
    ∀ (ds : List String) (st st' : VState γ), TInv rules st →
      visitDeps visitF rules ds st = .ok st' →
      TInv rules st' ∧ st'.temp = st.temp ∧ st.marked ⊆ st'.marked ∧
      (∀ d ∈ ds, d ∈ st'.marked) ∧ ∃ news, st'.ordered = st.ordered ++ news := by
  intro ds
  induction ds with
  | nil =>
    intro st st' hinv h
    cases h
    exact ⟨hinv, rfl, Finset.Subset.refl _, by simp, ⟨[], by simp⟩⟩
  | cons d ds ih =>
    intro st st' hinv h
    unfold visitDeps at h
    split at h
    · cases h
    · rename_i rd hf
      split at h
      · cases h
      · rename_i st₂ hv
        obtain ⟨hinv₂, htemp₂, hmark₂, htag₂, news₂, hord₂⟩ :=
          hF rd st st₂ (findRule_mem hf) hinv hv
        obtain ⟨hinv', htemp', hmark', hds', news', hord'⟩ := ih st₂ st' hinv₂ h
        refine ⟨hinv', htemp'.trans htemp₂, hmark₂.trans hmark', ?_,
          ⟨news₂ ++ news', by rw [hord', hord₂, List.append_assoc]⟩⟩
        intro d' hd'
        rcases List.mem_cons.mp hd' with rfl | hd'
        · exact hmark' ((findRule_tag hf) ▸ htag₂)
        · exact hds' d' hd'

/-- Properties of a successful `visit`: the invariant is preserved, the
temporary marks are restored, the permanent marks grow and include the
visited rule's tag, and the output list only grows. -/
theorem visit_ok_props {γ : Type} (rules : List (Rule γ)) :
    ∀ (fuel : Nat) (r : Rule γ) (st st' : VState γ), r ∈ rules → TInv rules st →
      visit rules fuel r st = .ok st' →
      TInv rules st' ∧ st'.temp = st.temp ∧ st.marked ⊆ st'.marked ∧
      r.tag ∈ st'.marked ∧ ∃ news, st'.ordered = st.ordered ++ news := by
  intro fuel
  induction fuel with
  | zero => intro r st st' _ _ h; cases h
  | succ fuel ih =>
    intro r st st' hr hinv h
    unfold visit at h
    by_cases h1 : r.tag ∈ st.temp
    · rw [if_pos h1] at h
      cases h
    rw [if_neg h1] at h
    by_cases h2 : r.tag ∈ st.marked
    · rw [if_pos h2] at h
      cases h
      exact ⟨hinv, rfl, Finset.Subset.refl _, h2, ⟨[], by simp⟩⟩
    rw [if_neg h2] at h
    rcases hd : visitDeps (visit rules fuel) rules r.deps
        { st with temp := insert r.tag st.temp } with e | stD <;> rw [hd] at h
    · cases h
    cases h
    have hinv₁ : TInv rules { st with temp := insert r.tag st.temp } :=
      tinv_insert_temp hinv hr h2
    obtain ⟨hinvD, htempD, hmarkD, hdsD, newsD, hordD⟩ :=
      visitDeps_ok_props rules (visit rules fuel) ih r.deps _ stD hinv₁ hd
    obtain ⟨hD1, hD2, hD3, hD4, hD5, hD6⟩ := hinvD
    have hrtag_temp : r.tag ∈ stD.temp := by
      rw [htempD]
      exact Finset.mem_insert_self _ _
    have hrtag_nmarked : r.tag ∉ stD.marked := hD4 _ hrtag_temp
    have hrtag_nlist : r.tag ∉ stD.ordered.map fun q => q.tag := fun hm =>
      hrtag_nmarked (hD1 ▸ List.mem_toFinset.mpr hm)
    have deps_in_list : ∀ d ∈ r.deps, d ∈ stD.ordered.map fun q => q.tag := by
      intro d hdd
      have := hdsD d hdd
      rw [hD1] at this
      exact List.mem_toFinset.mp this
    refine ⟨⟨?_, depsBefore_append hD2 deps_in_list, ?_, ?_, ?_, ?_⟩, ?_, ?_, ?_, ?_⟩
    · rw [List.map_append, List.toFinset_append, hD1]
      ext x
      simp [or_comm]
    · rw [List.map_append]
      refine List.nodup_append.mpr ⟨hD3, List.nodup_singleton _, ?_⟩
      intro a ha hb
      simp at hb
      exact hrtag_nlist (hb ▸ ha)
    · intro t ht
      obtain ⟨hne, htmem⟩ := Finset.mem_erase.mp ht
      intro hmem
      rcases Finset.mem_insert.mp hmem with rfl | hmem
      · exact hne rfl
      · exact hD4 t htmem hmem
    · exact (Finset.erase_subset _ _).trans hD5
    · intro q hq
      rcases List.mem_append.mp hq with hq | hq
      · exact hD6 q hq
      · rw [List.mem_singleton.mp hq]
        exact hr
    · rw [htempD]
      exact Finset.erase_insert h1
    · exact Finset.Subset.trans hmarkD (Finset.subset_insert _ _)
    · exact Finset.mem_insert_self _ _
    · exact ⟨newsD ++ [r], by rw [hordD, List.append_assoc]⟩

/-- Unfolding equation for the dependency loop once the head dependency
resolves. -/
theorem visitDeps_cons_eq {γ : Type}
    (visitF : Rule γ → VState γ → Except TaggerErr (VState γ))
    (rules : List (Rule γ)) (d : String) (ds : List String) (st : VState γ)
    (rd : Rule γ) (hfd : findRule rules d = some rd) :
    visitDeps visitF rules (d :: ds) st =
      match visitF rd st with
      | .error e => .error e
      | .ok st' => visitDeps visitF rules ds st' := by
  conv_lhs => unfold visitDeps
  rw [hfd]

/-- With every prerequisite resolvable, enough fuel and the invariant,
`visit` can only fail with the cyclic-dependency error: never with an
unresolved dependency, and never by running out of fuel (the nesting
depth is bounded by the number of distinct tags). -/
theorem visit_ne_bad {γ : Type} (rules : List (Rule γ))
    (hres : ∀ r ∈ rules, ∀ d ∈ r.deps, ∃ rr ∈ rules, rr.tag = d) :
    ∀ (fuel : Nat) (r : Rule γ) (st : VState γ), r ∈ rules → TInv rules st →
      (allTags rules).card + 1 ≤ fuel + st.temp.card →
      visit rules fuel r st ≠ .error .unresolved ∧
      visit rules fuel r st ≠ .error .fuelExhausted := by
  intro fuel
  induction fuel with
  | zero =>
    intro r st _ hinv hcard
    have hsub : st.temp.card ≤ (allTags rules).card :=
      Finset.card_le_card hinv.2.2.2.2.1
    omega
  | succ fuel ih =>
    intro r st hr hinv hcard
    have haux : ∀ (ds : List String) (stx : VState γ),
        (∀ d ∈ ds, ∃ rr ∈ rules, rr.tag = d) → TInv rules stx →
        (allTags rules).card + 1 ≤ fuel + stx.temp.card →
        visitDeps (visit rules fuel) rules ds stx ≠ .error .unresolved ∧
        visitDeps (visit rules fuel) rules ds stx ≠ .error .fuelExhausted := by
      intro ds
      induction ds with
      | nil =>
        intro stx _ _ _
        exact ⟨by simp [visitDeps], by simp [visitDeps]⟩
      | cons d ds ihds =>
        intro stx hds hinvx hcardx
        obtain ⟨rd, hfd⟩ := findRule_isSome (hds d (List.mem_cons_self _ _))
        rcases hv : visit rules fuel rd stx with e | st₂
        · have heq : visitDeps (visit rules fuel) rules (d :: ds) stx = .error e := by
            rw [visitDeps_cons_eq _ _ _ _ _ _ hfd, hv]
          obtain ⟨hne1, hne2⟩ := ih rd stx (findRule_mem hfd) hinvx hcardx
          rw [hv] at hne1 hne2
          rw [heq]
          exact ⟨hne1, hne2⟩
        · have heq : visitDeps (visit rules fuel) rules (d :: ds) stx =
              visitDeps (visit rules fuel) rules ds st₂ := by
            rw [visitDeps_cons_eq _ _ _ _ _ _ hfd, hv]
          obtain ⟨hinv₂, htemp₂, _, _, _⟩ :=
            visit_ok_props rules fuel rd stx st₂ (findRule_mem hfd) hinvx hv
          have hcard₂ : (allTags rules).card + 1 ≤ fuel + st₂.temp.card := by
            rw [htemp₂]
            exact hcardx
          rw [heq]
          exact ihds st₂ (fun d' hd' => hds d' (List.mem_cons_of_mem _ hd')) hinv₂ hcard₂
    by_cases h1 : r.tag ∈ st.temp
    · have heq : visit rules (fuel + 1) r st = .error .cyclic := by
        unfold visit
        rw [if_pos h1]
      rw [heq]
      exact ⟨by simp, by simp⟩
    by_cases h2 : r.tag ∈ st.marked
    · have heq : visit rules (fuel + 1) r st = .ok st := by
        unfold visit
        rw [if_neg h1, if_pos h2]
      rw [heq]
      exact ⟨by simp, by simp⟩
    have hinv₁ : TInv rules { st with temp := insert r.tag st.temp } :=
      tinv_insert_temp hinv hr h2
    have hcard₁ : (allTags rules).card + 1 ≤ fuel + (insert r.tag st.temp).card := by
      rw [Finset.card_insert_of_not_mem h1]
      omega
    obtain ⟨hbad1, hbad2⟩ := haux r.deps { st with temp := insert r.tag st.temp }
      (hres r hr) hinv₁ hcard₁
    rcases hd : visitDeps (visit rules fuel) rules r.deps
        { st with temp := insert r.tag st.temp } with e | stD
    · have heq : visit rules (fuel + 1) r st = .error e := by
        unfold visit
        rw [if_neg h1, if_neg h2, hd]
      rw [hd] at hbad1 hbad2
      rw [heq]
      exact ⟨hbad1, hbad2⟩
    · have heq : visit rules (fuel + 1) r st =
          .ok { ordered := stD.ordered ++ [r], marked := insert r.tag stD.marked,
                temp := stD.temp.erase r.tag } := by
        unfold visit
        rw [if_neg h1, if_neg h2, hd]
      rw [heq]
      exact ⟨by simp, by simp⟩

/-- Properties of a successful top-level resolution loop. -/
theorem resolveGo_props {γ : Type} (rules : List (Rule γ)) :
    ∀ (pending : List (Rule γ)) (st st' : VState γ), TInv rules st →
      (∀ r ∈ pending, r ∈ rules) →
      resolveGo rules pending st = .ok st' →
      TInv rules st' ∧ st.marked ⊆ st'.marked ∧
      (∀ r ∈ pending, r.tag ∈ st'.marked) ∧ st'.temp = st.temp := by
  intro pending
  induction pending with
  | nil =>
    intro st st' hinv _ h
    cases h
    exact ⟨hinv, Finset.Subset.refl _, by simp, rfl⟩
  | cons r rest ih =>
    intro st st' hinv hmem h
    unfold resolveGo at h
    by_cases h1 : r.tag ∈ st.marked
    · rw [if_pos h1] at h
      obtain ⟨hinv', hmark', hrest', htemp'⟩ :=
        ih st st' hinv (fun q hq => hmem q (List.mem_cons_of_mem _ hq)) h
      refine ⟨hinv', hmark', ?_, htemp'⟩
      intro q hq
      rcases List.mem_cons.mp hq with rfl | hq
      · exact hmark' h1
      · exact hrest' q hq
    · rw [if_neg h1] at h
      rcases hv : visit rules (rules.length + 1) r st with e | st₂ <;> rw [hv] at h
      · cases h
      · obtain ⟨hinv₂, htemp₂, hmark₂, htag₂, _⟩ :=
          visit_ok_props rules (rules.length + 1) r st st₂
            (hmem r (List.mem_cons_self _ _)) hinv hv
        obtain ⟨hinv', hmark', hrest', htemp'⟩ :=
          ih st₂ st' hinv₂ (fun q hq => hmem q (List.mem_cons_of_mem _ hq)) h
        refine ⟨hinv', hmark₂.trans hmark', ?_, htemp'.trans htemp₂⟩
        intro q hq
        rcases List.mem_cons.mp hq with rfl | hq
        · exact hmark' htag₂
        · exact hrest' q hq

/-- Unfolding equation of the top-level resolution loop. -/
theorem resolveGo_cons {γ : Type} (rules : List (Rule γ)) (r : Rule γ)
    (rest : List (Rule γ)) (st : VState γ) :
    resolveGo rules (r :: rest) st =
      if r.tag ∈ st.marked then resolveGo rules rest st
      else
        match visit rules (rules.length + 1) r st with
        | .error e => .error e
        | .ok st' => resolveGo rules rest st' := by
  conv_lhs => rw [resolveGo]

/-- The top-level loop never reports an unresolved dependency or fuel
exhaustion when every prerequisite is resolvable. -/
theorem resolveGo_ne_bad {γ : Type} (rules : List (Rule γ))
    (hres : ∀ r ∈ rules, ∀ d ∈ r.deps, ∃ rr ∈ rules, rr.tag = d) :
    ∀ (pending : List (Rule γ)) (st : VState γ), TInv rules st → st.temp = ∅ →
      (∀ r ∈ pending, r ∈ rules) →
      resolveGo rules pending st ≠ .error .unresolved ∧
      resolveGo rules pending st ≠ .error .fuelExhausted := by
  intro pending
  induction pending with
  | nil =>
    intro st _ _ _
    exact ⟨by simp [resolveGo], by simp [resolveGo]⟩
  | cons r rest ih =>
    intro st hinv htemp hmem
    have hcard : (allTags rules).card + 1 ≤ (rules.length + 1) + st.temp.card := by
      have h1 : (allTags rules).card ≤ rules.length := by
        have := List.toFinset_card_le (l := rules.map fun r => r.tag)
        simpa [allTags] using this
      omega
    by_cases h1 : r.tag ∈ st.marked
    · have heq : resolveGo rules (r :: rest) st = resolveGo rules rest st := by
        rw [resolveGo_cons, if_pos h1]
      rw [heq]
      exact ih st hinv htemp (fun q hq => hmem q (List.mem_cons_of_mem _ hq))
    · obtain ⟨hbad1, hbad2⟩ := visit_ne_bad rules hres (rules.length + 1) r st
        (hmem r (List.mem_cons_self _ _)) hinv hcard
      rcases hv : visit rules (rules.length + 1) r st with e | st₂
      · have heq : resolveGo rules (r :: rest) st = .error e := by
          rw [resolveGo_cons, if_neg h1, hv]
        rw [hv] at hbad1 hbad2
        rw [heq]
        exact ⟨hbad1, hbad2⟩
      · have heq : resolveGo rules (r :: rest) st = resolveGo rules rest st₂ := by
          rw [resolveGo_cons, if_neg h1, hv]
        obtain ⟨hinv₂, htemp₂, _, _, _⟩ :=
          visit_ok_props rules (rules.length + 1) r st st₂
            (hmem r (List.mem_cons_self _ _)) hinv hv
        rw [heq]
        exact ih st₂ hinv₂ (htemp₂.trans htemp)
          (fun q hq => hmem q (List.mem_cons_of_mem _ hq))

/-- A successful `resolveDependancies` yields a topologically sorted,
duplicate-free list of the input rules containing every input tag. -/
theorem resolve_ok_props {γ : Type} (rules : List (Rule γ)) (l : List (Rule γ))
    (h : resolveDependancies rules = .ok l) :
    DepsBefore l ∧ ((l.map fun r => r.tag).Nodup) ∧ (∀ q ∈ l, q ∈ rules) ∧
    (∀ r ∈ rules, r.tag ∈ l.map fun r => r.tag) := by
  unfold resolveDependancies at h
  rcases hg : resolveGo rules rules ⟨[], ∅, ∅⟩ with e | st <;> rw [hg] at h
  · cases h
  · cases h
    obtain ⟨⟨hm, hd, hn, _, _, hq⟩, _, hall, _⟩ :=
      resolveGo_props rules rules ⟨[], ∅, ∅⟩ st (tinv_init rules) (fun _ hr => hr) hg
    refine ⟨hd, hn, hq, ?_⟩
    intro r hr
    have := hall r hr
    rw [hm] at this
    exact List.mem_toFinset.mp this

/-- In a topologically sorted duplicate-free listing of the rules, a
dependency edge strictly increases the list position. -/
theorem dependsOn_indexOf_lt {γ : Type} (rules l : List (Rule γ))
    (hnd : (rules.map fun r => r.tag).Nodup)
    (hdb : DepsBefore l) (hln : (l.map fun r => r.tag).Nodup)
    (hsub : ∀ q ∈ l, q ∈ rules)
    (hall : ∀ r ∈ rules, r.tag ∈ l.map fun r => r.tag)
    {p r : String} (h : DependsOn rules p r) :
    (l.map fun r => r.tag).indexOf p < (l.map fun r => r.tag).indexOf r := by
  obtain ⟨rr, hrrmem, hrrtag, hp⟩ := h
  have hrmem : r ∈ l.map fun q => q.tag := hrrtag ▸ hall rr hrrmem
  have hi : (l.map fun q => q.tag).indexOf r < (l.map fun q => q.tag).length :=
    List.indexOf_lt_length.mpr hrmem
  have hil : (l.map fun q => q.tag).indexOf r < l.length := by simpa using hi
  have hgot : (l.map fun q => q.tag)[(l.map fun q => q.tag).indexOf r] = r :=
    List.getElem_indexOf hi
  have hgete : (l[(l.map fun q => q.tag).indexOf r]).tag = r := by
    rw [List.getElem_map] at hgot
    exact hgot
  have hemem : l[(l.map fun q => q.tag).indexOf r] ∈ l := List.getElem_mem _
  have heeq : l[(l.map fun q => q.tag).indexOf r] = rr := by
    apply List.inj_on_of_nodup_map hnd (hsub _ hemem) hrrmem
    rw [hgete, hrrtag]
  have hpdeps : p ∈ (l[(l.map fun q => q.tag).indexOf r]).deps := by
    rw [heeq]
    exact hp
  have hptake := hdb ((l.map fun q => q.tag).indexOf r) hil p hpdeps
  obtain ⟨q, hqmem, hqtag⟩ := List.mem_map.mp hptake
  obtain ⟨j, hjlt, hjget⟩ := List.mem_iff_getElem.mp hqmem
  have hjlen : j < l.length := by
    rw [List.length_take] at hjlt
    exact lt_of_lt_of_le hjlt (min_le_right _ _)
  have hji : j < (l.map fun q => q.tag).indexOf r := by
    rw [List.length_take] at hjlt
    exact lt_of_lt_of_le hjlt (min_le_left _ _)
  have hgetj : l[j] = q := by
    rw [List.getElem_take] at hjget
    exact hjget
  have hjl : (l.map fun q => q.tag)[j] = p := by
    rw [List.getElem_map, hgetj, hqtag]
  have hidx : (l.map fun q => q.tag).indexOf p = j := by
    have := List.indexOf_getElem hln j (by simpa using hjlen)
    rw [hjl] at this
    exact this
  rw [hidx]
  exact hji

/-- A successful resolution excludes any dependency cycle. -/
theorem resolve_ok_no_cycle {γ : Type} (rules l : List (Rule γ))
    (hnd : (rules.map fun r => r.tag).Nodup)
    (h : resolveDependancies rules = .ok l) :
    ∀ t, ¬ Relation.TransGen (DependsOn rules) t t := by
  obtain ⟨hdb, hln, hsub, hall⟩ := resolve_ok_props rules l h
  intro t hcyc
  have key : ∀ a b, Relation.TransGen (DependsOn rules) a b →
      (l.map fun r => r.tag).indexOf a < (l.map fun r => r.tag).indexOf b := by
    intro a b hab
    induction hab with
    | single hstep => exact dependsOn_indexOf_lt rules l hnd hdb hln hsub hall hstep
    | tail _ hstep ihab =>
      exact ihab.trans (dependsOn_indexOf_lt rules l hnd hdb hln hsub hall hstep)
  exact absurd (key t t hcyc) (lt_irrefl _)

/-- A dependency cycle makes resolution fail with the cyclic error. -/
theorem resolve_cyclic {γ : Type} (rules : List (Rule γ))
    (hnd : (rules.map fun r => r.tag).Nodup)
    (hres : ∀ r ∈ rules, ∀ d ∈ r.deps, ∃ rr ∈ rules, rr.tag = d)
    (t : String) (hcyc : Relation.TransGen (DependsOn rules) t t) :
    resolveDependancies rules = .error .cyclic := by
  rcases hg : resolveGo rules rules ⟨[], ∅, ∅⟩ with e | st
  · obtain ⟨hb1, hb2⟩ :=
      resolveGo_ne_bad rules hres rules ⟨[], ∅, ∅⟩ (tinv_init rules) rfl (fun _ h => h)
    rw [hg] at hb1 hb2
    have heq : resolveDependancies rules = .error e := by
      unfold resolveDependancies
      rw [hg]
    rw [heq]
    cases e with
    | cyclic => rfl
    | unresolved => exact absurd rfl hb1
    | fuelExhausted => exact absurd rfl hb2
  · have hok : resolveDependancies rules = .ok st.ordered := by
      unfold resolveDependancies
      rw [hg]
    exact absurd hcyc (resolve_ok_no_cycle rules st.ordered hnd hok t)

/-- Evaluation distributes over list concatenation. -/
theorem evalRules_append {γ : Type} (x : γ) :
    ∀ (A B : List (Rule γ)) (acc : Finset String),
      evalRules x (A ++ B) acc = evalRules x B (evalRules x A acc) := by
  intro A
  induction A with
  | nil => intro B acc; rfl
  | cons r A ih =>
    intro B acc
    rw [List.cons_append]
    show evalRules x (A ++ B) (if r.pred x acc then insert r.tag acc else acc) = _
    rw [ih]
    rfl

/-- The applied-tag set only grows during evaluation. -/
theorem evalRules_mono {γ : Type} (x : γ) :
    ∀ (l : List (Rule γ)) (acc : Finset String), acc ⊆ evalRules x l acc := by
  intro l
  induction l with
  | nil => intro acc; exact Finset.Subset.refl _
  | cons r rest ih =>
    intro acc
    refine Finset.Subset.trans ?_ (ih (if r.pred x acc then insert r.tag acc else acc))
    by_cases hp : r.pred x acc
    · rw [if_pos hp]
      exact Finset.subset_insert _ _
    · rw [if_neg hp]

/-- In a topologically sorted list, each prerequisite of the rule at
position `i` belongs to an earlier position `j`, and if that earlier
rule's predicate fired, the prerequisite tag is in the applied set that
the rule at position `i` is evaluated with. -/
theorem depsBefore_eval {γ : Type} (l : List (Rule γ)) (hdb : DepsBefore l) (x : γ)
    (i : Nat) (hi : i < l.length) (d : String) (hd : d ∈ (l[i]).deps) :
    ∃ j, ∃ hj : j < l.length, j < i ∧ (l[j]).tag = d ∧
      ((l[j]).pred x (evalRules x (l.take j) ∅) = true →
        d ∈ evalRules x (l.take i) ∅) := by
  obtain ⟨q, hq, hqtag⟩ := List.mem_map.mp (hdb i hi d hd)
  obtain ⟨j, hjlt, hjget⟩ := List.mem_iff_getElem.mp hq
  have hjlen : j < l.length := by
    rw [List.length_take] at hjlt
    exact lt_of_lt_of_le hjlt (min_le_right _ _)
  have hji : j < i := by
    rw [List.length_take] at hjlt
    exact lt_of_lt_of_le hjlt (min_le_left _ _)
  have hget : l[j] = q := by
    rw [List.getElem_take] at hjget
    exact hjget
  have htagd : (l[j]).tag = d := by rw [hget, hqtag]
  refine ⟨j, hjlen, hji, htagd, ?_⟩
  intro hpred
  have htk : l.take (j + 1) = l.take j ++ [l[j]] := by
    rw [List.take_succ, List.getElem?_eq_getElem hjlen]
    rfl
  have hin : d ∈ evalRules x (l.take (j + 1)) ∅ := by
    rw [htk, evalRules_append]
    show d ∈ evalRules x []
      (if (l[j]).pred x (evalRules x (l.take j) ∅)
       then insert (l[j]).tag (evalRules x (l.take j) ∅)
       else evalRules x (l.take j) ∅)
    rw [if_pos hpred]
    show d ∈ insert (l[j]).tag (evalRules x (l.take j) ∅)
    rw [htagd]
    exact Finset.mem_insert_self _ _
  have hsplit : l.take i = l.take (j + 1) ++ (l.take i).drop (j + 1) := by
    conv_lhs => rw [← List.take_append_drop (j + 1) (l.take i)]
    rw [List.take_take, min_eq_left (by omega : j + 1 ≤ i)]
  rw [hsplit, evalRules_append]
  exact evalRules_mono x _ _ hin

/-- C6: for a rule set with distinct tags and resolvable prerequisites,
(1) a cyclic prerequisite graph makes `Tagger` construction fail with
the cyclic-dependency error, and (2) on a successful (acyclic)
construction the rule list is a topological order of the prerequisite
DAG containing every rule, and for every rule at position `i` with
prerequisite `d` there is an earlier position `j` carrying tag `d` such
that whenever that rule's predicate evaluated true, `d` is contained in
the already-applied-tags set passed to the predicate at position `i`. -/
theorem C6_tagger_rejects_cycles_and_evaluates_in_topo_order {γ : Type}
    (rules : List (Rule γ))
    (hnd : (rules.map fun r => r.tag).Nodup)
    (hres : ∀ r ∈ rules, ∀ d ∈ r.deps, ∃ rr ∈ rules, rr.tag = d) :
    (HasCycle rules → resolveDependancies rules = .error .cyclic) ∧
    (∀ l, resolveDependancies rules = .ok l →
      DepsBefore l ∧ (∀ r ∈ rules, r.tag ∈ l.map fun q => q.tag) ∧
      (∀ (x : γ) (i : Nat) (hi : i < l.length), ∀ d ∈ (l[i]).deps,
        ∃ j, ∃ hj : j < l.length, j < i ∧ (l[j]).tag = d ∧
          ((l[j]).pred x (Tagger.evaluate (l.take j) x) = true →
            d ∈ Tagger.evaluate (l.take i) x))) := by
  constructor
  · rintro ⟨t, hcyc⟩
    exact resolve_cyclic rules hnd hres t hcyc
  · intro l hl
    obtain ⟨hdb, _, _, hall⟩ := resolve_ok_props rules l hl
    exact ⟨hdb, hall, fun x i hi d hd => depsBefore_eval l hdb x i hi d hd⟩

/-- Witness for C6 at the concrete cyclic rule pair a → b → a. -/
theorem C6_witness :
    resolveDependancies cyclicRules = .error .cyclic := by
  have hmema : (⟨"a", ["b"], fun _ _ => true⟩ : Rule Unit) ∈ cyclicRules :=
    List.mem_cons_self _ _
  have hmemb : (⟨"b", ["a"], fun _ _ => true⟩ : Rule Unit) ∈ cyclicRules :=
    List.mem_cons_of_mem _ (List.mem_cons_self _ _)
  have hab : DependsOn cyclicRules "a" "b" :=
    ⟨⟨"b", ["a"], fun _ _ => true⟩, hmemb, rfl, by simp⟩
  have hba : DependsOn cyclicRules "b" "a" :=
    ⟨⟨"a", ["b"], fun _ _ => true⟩, hmema, rfl, by simp⟩
  refine (C6_tagger_rejects_cycles_and_evaluates_in_topo_order cyclicRules ?_ ?_).1
    ⟨"a", Relation.TransGen.tail (Relation.TransGen.single hab) hba⟩
  · simp [cyclicRules]
  · intro r hr d hd
    rcases List.mem_cons.mp hr with rfl | hr
    · simp at hd
      subst hd
      exact ⟨_, hmemb, rfl⟩
    rcases List.mem_cons.mp hr with rfl | hr
    · simp at hd
      subst hd
      exact ⟨_, hmema, rfl⟩
    · cases hr
